import Mathlib

/-!
Verification of the bolt-rs Bolt protocol codec and client against its
specification.

The development shallowly embeds the Rust sources:
* `bolt-proto/src/value/integer.rs` — the `Integer` value type, its marker
  selection (`get_marker`), serializer (`TryInto<Bytes>`) and deserializer
  (`TryFrom<Arc<Mutex<Bytes>>>`);
* `rust-bolt/src/message/message_bytes.rs` — the chunked message framer
  (`Into<Bytes>` / `TryFrom<Bytes>` for `MessageBytes`);
* `bolt-client/src/client/v1.rs` — the v1 client methods, their
  `#[bolt_version(..)]` gating and the `pull_all` read loop;
* `bolt-proto/src/value/list/conversions.rs` — `List` / `Vec` conversions;
* the INIT message serializer fixtures.

Bytes are modelled as `Nat` values below 256; buffers as `List Nat`;
machine integers as `Int` with explicit two's-complement conversion at
width boundaries; fallible operations return `Except`.
-/

set_option maxRecDepth 100000
set_option linter.unnecessarySeqFocus false

/-- Big-endian interpretation of a byte list as an unsigned number,
as the `get_uNN` family of the `bytes` crate computes it. -/
def beNat (bs : List Nat) : Nat := bs.foldl (fun a b => a * 256 + b) 0

/-- The `w` low-order bytes of `n`, most significant first, as the
`put_uNN`/`put_iNN` family of the `bytes` crate writes them. -/
def beBytes : Nat → Nat → List Nat
  | 0, _ => []
  | w + 1, n => beBytes w (n / 256) ++ [n % 256]

/-- `put_u16(n as u16)`: the two big-endian bytes of `n` modulo 2^16. -/
def u16be (n : Nat) : List Nat := [n / 256 % 256, n % 256]

/-- Reinterpret an unsigned `w`-byte value as a signed one
(two's complement), as Rust's `iNN` reads do. -/
def ofNat2c (w : Nat) (n : Nat) : Int :=
  if n < 2 ^ (8 * w - 1) then (n : Int) else (n : Int) - 2 ^ (8 * w)

/-- The unsigned `w`-byte two's-complement representation of a signed
value, as Rust's `iNN → big-endian bytes` writes produce it. -/
def toNat2c (w : Nat) (v : Int) : Nat := (v % ((2 : Int) ^ (8 * w))).toNat

instance exceptDecEq {ε α : Type} [DecidableEq ε] [DecidableEq α] :
    DecidableEq (Except ε α) := fun
  | .error e, .error f =>
    if h : e = f then .isTrue (by rw [h]) else .isFalse (by simp [h])
  | .error _, .ok _ => .isFalse (by simp)
  | .ok _, .error _ => .isFalse (by simp)
  | .ok a, .ok b =>
    if h : a = b then .isTrue (by rw [h]) else .isFalse (by simp [h])

/-- `bolt_proto::error::Error` cases reachable from the integer codec. -/
inductive SerError where
  | valueTooLarge (n : Nat)
  deriving DecidableEq, Repr

/-- `bolt_proto::error::DeserializationError` cases reachable from the
integer codec: `InvalidMarkerByte` and the `catch_unwind`-converted
`Panicked`. -/
inductive DeserError where
  | invalidMarkerByte (b : Nat)
  | panicked
  deriving DecidableEq, Repr

/-- `bolt_proto::value::Integer`: the raw big-endian bytes of the stored
value, of whatever width it was constructed with. -/
structure Integer where
  bytes : List Nat
  deriving DecidableEq, Repr

/-- The logical signed value an `Integer` stores: its bytes read big-endian
at their own width. -/
def Integer.value (i : Integer) : Int := ofNat2c i.bytes.length (beNat i.bytes)

/-- `Integer::from(v: i8)` (integer conversions module; behaviour pinned by
the in-crate tests): store the one-byte representation. -/
def Integer.fromI8 (v : Int) : Integer := ⟨beBytes 1 (toNat2c 1 v)⟩

/-- `Integer::from(v: i16)`: store the two-byte big-endian representation. -/
def Integer.fromI16 (v : Int) : Integer := ⟨beBytes 2 (toNat2c 2 v)⟩

/-- `Integer::from(v: i32)`: store the four-byte big-endian representation. -/
def Integer.fromI32 (v : Int) : Integer := ⟨beBytes 4 (toNat2c 4 v)⟩

/-- `Integer::from(v: i64)`: store the eight-byte big-endian representation. -/
def Integer.fromI64 (v : Int) : Integer := ⟨beBytes 8 (toNat2c 8 v)⟩

/-- `Integer::get_marker` (integer.rs lines 24–42): decode the stored bytes
at their stored width (1, 2, 4 or 8; anything else is `ValueTooLarge`),
then pick the marker from the value's range.  The final `-16..=127` arm of
the Rust `match` is the fall-through branch here, which is faithful because
the `match` is exhaustive over `i64`. -/
def Integer.getMarker (i : Integer) : Except SerError Nat :=
  if i.bytes.length = 1 ∨ i.bytes.length = 2 ∨ i.bytes.length = 4 ∨ i.bytes.length = 8 then
    let v := ofNat2c i.bytes.length (beNat i.bytes)
    if v ≤ -2147483649 ∨ 2147483648 ≤ v then .ok 0xCB
    else if v ≤ -32769 ∨ 32768 ≤ v then .ok 0xCA
    else if v ≤ -129 ∨ 128 ≤ v then .ok 0xC9
    else if v ≤ -17 then .ok 0xC8
    else .ok (toNat2c 1 v)
  else .error (.valueTooLarge i.bytes.length)

/-- `TryInto<Bytes> for Integer` (integer.rs lines 46–65): emit the marker,
then — reading the reversed stored bytes little-endian, exactly as the
source does — the low `k` bytes of the value, written big-endian, where `k`
is the width the marker selects (none for a tiny marker). -/
def Integer.tryIntoBytes (i : Integer) : Except SerError (List Nat) :=
  match i.getMarker with
  | .error e => .error e
  | .ok marker =>
    let r := i.bytes.reverse
    if marker = 0xC8 then .ok (0xC8 :: (r.take 1).reverse)
    else if marker = 0xC9 then .ok (0xC9 :: (r.take 2).reverse)
    else if marker = 0xCA then .ok (0xCA :: (r.take 4).reverse)
    else if marker = 0xCB then .ok (0xCB :: (r.take 8).reverse)
    else .ok [marker]

/-- `TryFrom<Arc<Mutex<Bytes>>> for Integer` (integer.rs lines 69–88):
read the marker byte; a byte whose `i8` reading lies in `-16..=127` decodes
in place, `0xC8`/`0xC9`/`0xCA`/`0xCB` read a 1/2/4/8-byte big-endian signed
payload, anything else is `InvalidMarkerByte`.  The `bytes` crate panics
that `catch_unwind` converts to `DeserializationError::Panicked` — reading
past the end of the buffer — are the `panicked` branches. -/
def Integer.tryFromBytes : List Nat → Except DeserError (Integer × List Nat)
  | [] => .error .panicked
  | m :: rest =>
    if m ≤ 127 ∨ 0xF0 ≤ m then .ok (Integer.fromI8 (ofNat2c 1 m), rest)
    else if m = 0xC8 then
      match rest with
      | [] => .error .panicked
      | p :: rest1 => .ok (Integer.fromI8 (ofNat2c 1 p), rest1)
    else if m = 0xC9 then
      if 2 ≤ rest.length then
        .ok (Integer.fromI16 (ofNat2c 2 (beNat (rest.take 2))), rest.drop 2)
      else .error .panicked
    else if m = 0xCA then
      if 4 ≤ rest.length then
        .ok (Integer.fromI32 (ofNat2c 4 (beNat (rest.take 4))), rest.drop 4)
      else .error .panicked
    else if m = 0xCB then
      if 8 ≤ rest.length then
        .ok (Integer.fromI64 (ofNat2c 8 (beNat (rest.take 8))), rest.drop 8)
      else .error .panicked
    else .error (.invalidMarkerByte m)

/-- The integer encoding the specification's width-selection table
prescribes: the narrowest of tiny / i8 / i16 / i32 / i64 that fits `v`,
marker first, payload big-endian. -/
def canonicalIntBytes (v : Int) : List Nat :=
  if -16 ≤ v ∧ v ≤ 127 then [toNat2c 1 v]
  else if -128 ≤ v ∧ v ≤ -17 then 0xC8 :: beBytes 1 (toNat2c 1 v)
  else if (-32768 ≤ v ∧ v ≤ -129) ∨ (128 ≤ v ∧ v ≤ 32767) then
    0xC9 :: beBytes 2 (toNat2c 2 v)
  else if (-2147483648 ≤ v ∧ v ≤ -32769) ∨ (32768 ≤ v ∧ v ≤ 2147483647) then
    0xCA :: beBytes 4 (toNat2c 4 v)
  else 0xCB :: beBytes 8 (toNat2c 8 v)

/-- The marker the specification's width table assigns to a value. -/
def markerOf (v : Int) : Nat :=
  if -16 ≤ v ∧ v ≤ 127 then toNat2c 1 v
  else if -128 ≤ v ∧ v ≤ -17 then 0xC8
  else if (-32768 ≤ v ∧ v ≤ -129) ∨ (128 ≤ v ∧ v ≤ 32767) then 0xC9
  else if (-2147483648 ≤ v ∧ v ≤ -32769) ∨ (32768 ≤ v ∧ v ≤ 2147483647) then 0xCA
  else 0xCB

/-- `rust_bolt::error::DeserializeError` (one string-carrying case; the
string content is irrelevant to the claims). -/
inductive FrameError where
  | deserializeError
  deriving DecidableEq, Repr

/-- `Into<Bytes> for MessageBytes` (message_bytes.rs lines 83–94): the whole
body as one chunk — `put_u16(len as u16)`, the body bytes, then the
`put_u16(0)` terminator.  The source's own TODO records that large
messages are not split into several chunks. -/
def msgIntoBytes (body : List Nat) : List Nat :=
  u16be body.length ++ body ++ u16be 0

/-- `TryFrom<Bytes> for MessageBytes` (message_bytes.rs lines 54–81): while
bytes remain, read a u16 big-endian size; stop at a zero size with nothing
after it; otherwise take exactly `size` bytes as a chunk and append them.
Reading past the end panics inside `catch_unwind`, surfacing as a
`DeserializeError`.  `Chunk::try_from` (chunk.rs, not under src/) is
modelled from the spec as accepting every buffer of at most 65535 bytes,
which every u16-sized read is. -/
def reassembleChunks : List Nat → List Nat → Except FrameError (List Nat)
  | [], acc => .ok acc
  | [_], _ => .error .deserializeError
  | b0 :: b1 :: rest, acc =>
    let size := b0 * 256 + b1
    if size = 0 ∧ rest = [] then .ok acc
    else if size ≤ rest.length then
      reassembleChunks (rest.drop size) (acc ++ rest.take size)
    else .error .deserializeError
  termination_by bs _ => bs.length
  decreasing_by simp [List.length_drop]; omega

/-- The full `TryFrom<Bytes>` entry point: reassemble starting from an
empty message buffer. -/
def msgTryFromBytes (bytes : List Nat) : Except FrameError (List Nat) :=
  reassembleChunks bytes []

/-- The framing the specification prescribes for a chunk sequence: each
chunk is prefixed by its u16 big-endian length, and the message ends with
a zero length. -/
def frameChunks (chunks : List (List Nat)) : List Nat :=
  (chunks.map (fun c => u16be c.length ++ c)).flatten ++ u16be 0

/-- `bolt_proto::Value` (the enum itself is not under src/; modelled from
the spec's §3 value table, with every constructor that src/ mentions).
Float carries its raw IEEE-754 binary64 big-endian bit pattern. -/
inductive Value where
  | null
  | boolean (b : Bool)
  | integer (i : Integer)
  | float (bits : Nat)
  | byteArray (bs : List Nat)
  | string (s : String)
  | list (vs : List Value)
  | map (kvs : List (String × Value))
  | node (id : Integer) (labels : List String) (properties : List (String × Value))
  | relationship (id startId endId : Integer) (relType : String)
      (properties : List (String × Value))
  | unboundRelationship (id : Integer) (relType : String)
      (properties : List (String × Value))
  | path (nodes : List Value) (rels : List Value) (sequence : List Integer)

/-- `bolt_proto::value::List`: a wrapper holding a `Vec<Value>`. -/
structure BoltList where
  value : List Value

/-- `From<Vec<T>> for List` at `T = Value` (list/conversions.rs lines
7–16): map each element through `Into<Value>` — the identity at `Value`. -/
def listFromVec (vs : List Value) : BoltList :=
  ⟨vs.map (fun v => v)⟩

/-- `TryInto<Vec<Value>> for List` (list/conversions.rs lines 32–38):
unconditionally `Ok(self.value)`. -/
def listTryIntoVec (l : BoltList) : Except SerError (List Value) :=
  .ok l.value

/-- `bolt_proto::message::Record`: one result row, a list of field values. -/
structure Record where
  fields : List Value

/-- `bolt_proto::Message` (enum not under src/; modelled from the spec's
§3 message vocabulary — v1 client messages plus the four server
messages — all of which src/ constructs or matches on). -/
inductive Message where
  | init (clientName : String) (authToken : List (String × Value))
  | run (statement : String) (parameters : List (String × Value))
  | discardAll
  | pullAll
  | ackFailure
  | reset
  | success (metadata : List (String × Value))
  | failure (metadata : List (String × Value))
  | ignored
  | record (rec : Record)

/-- Whether a message is a `RECORD`. -/
def Message.isRecord : Message → Bool
  | .record _ => true
  | _ => false

/-- The terminal kinds the specification allows `pull_all` to return:
`SUCCESS`, `FAILURE` or `IGNORED`. -/
def isTerminalKind : Message → Bool
  | .success _ => true
  | .failure _ => true
  | .ignored => true
  | _ => false

/-- `bolt_client::error::Error` cases reachable from the claims. -/
inductive ClientError where
  | unsupportedOperation (version : Nat)
  | ioError
  deriving DecidableEq, Repr

/-- The read loop of `Client::pull_all` (v1.rs lines 112–122) over the
stream of incoming reply messages: collect `RECORD`s until the first
non-`RECORD` message, which is returned together with the records read so
far and the rest of the stream; an exhausted stream is a read error. -/
def pullAllLoop : List Message → List Record → Except ClientError ((Message × List Record) × List Message)
  | [], _ => .error .ioError
  | .record r :: rest, acc => pullAllLoop rest (acc ++ [r])
  | msg :: rest, acc => .ok ((msg, acc), rest)

/-- A v1 client method invocation, with its arguments. -/
inductive ClientMethod where
  | init (clientName : String) (authToken : List (String × Value))
  | run (statement : String) (parameters : List (String × Value))
  | discardAll
  | pullAll
  | ackFailure
  | reset

/-- The version sets declared by the `#[bolt_version(...)]` attributes on
the methods in v1.rs. -/
def supportedVersions : ClientMethod → List Nat
  | .init _ _ => [1, 2]
  | .run _ _ => [1, 2]
  | .discardAll => [1, 2, 3]
  | .pullAll => [1, 2, 3]
  | .ackFailure => [1, 2]
  | .reset => [1, 2, 3, 4]

/-- The message each v1 method sends (v1.rs: `Init::new`, `Run::new`, and
the unit messages). -/
def methodMessage : ClientMethod → Message
  | .init c a => .init c a
  | .run s p => .run s p
  | .discardAll => .discardAll
  | .pullAll => .pullAll
  | .ackFailure => .ackFailure
  | .reset => .reset

/-- The client: negotiated version, the messages written to the wire so
far, and the stream of incoming reply messages. -/
structure ClientState where
  version : Nat
  sent : List Message
  incoming : List Message

/-- Modelled from the spec: the `bolt_version` proc macro (crate
`bolt-client-macros`, not under src/) wraps each method body in a guard
returning `UnsupportedOperation(version)` before any I/O when the
negotiated version is outside the method's set; on success the method
sends its message and reads replies as the v1.rs bodies do (`pull_all`
loops over records, every other method reads one reply). -/
def invoke (m : ClientMethod) (st : ClientState) :
    Except ClientError (Message × List Record) × ClientState :=
  if st.version ∈ supportedVersions m then
    let st1 : ClientState := { st with sent := st.sent ++ [methodMessage m] }
    match m with
    | .pullAll =>
      match pullAllLoop st1.incoming [] with
      | .ok ((term, recs), rest) => (.ok (term, recs), { st1 with incoming := rest })
      | .error e => (.error e, { st1 with incoming := [] })
    | _ =>
      match st1.incoming with
      | [] => (.error .ioError, st1)
      | r :: rest => (.ok (r, []), { st1 with incoming := rest })
  else (.error (.unsupportedOperation st.version), st)

/-- Modelled from the spec: the String value serializer (produced in the
source by value impls not under src/): tiny marker `0x80|n` for n ≤ 15,
else 8/16/32-bit length-prefixed forms `0xD0`/`0xD1`/`0xD2`. -/
def encodeString (s : List Nat) : List Nat :=
  if s.length ≤ 15 then (0x80 + s.length) :: s
  else if s.length ≤ 255 then 0xD0 :: s.length :: s
  else if s.length ≤ 65535 then 0xD1 :: u16be s.length ++ s
  else 0xD2 :: beBytes 4 s.length ++ s

/-- The UTF-8 bytes of a string; the INIT fixture is pure ASCII, where
code points and bytes coincide. -/
def strBytes (s : String) : List Nat := s.toList.map Char.toNat

/-- Modelled from the spec: the Map value serializer for string-to-string
maps: tiny marker `0xA0|n` for n ≤ 15 entries, else `0xD8`/`0xD9`/`0xDA`,
followed by each key and value as String encodings. -/
def encodeStrMap (kvs : List (String × String)) : List Nat :=
  let body := (kvs.map
    (fun kv => encodeString (strBytes kv.1) ++ encodeString (strBytes kv.2))).flatten
  if kvs.length ≤ 15 then (0xA0 + kvs.length) :: body
  else if kvs.length ≤ 255 then 0xD8 :: kvs.length :: body
  else if kvs.length ≤ 65535 then 0xD9 :: u16be kvs.length ++ body
  else 0xDA :: beBytes 4 kvs.length ++ body

/-- Modelled from the spec: the INIT message serializer (init.rs declares
`Init` with derive macros `Signature`/`Marker`/`Serialize` not under
src/): a two-field structure — marker `0xB0|2`, signature `0x01`, the
client name String, the auth token Map. -/
def encodeInit (clientName : String) (authToken : List (String × String)) : List Nat :=
  (0xB0 + 2) :: 0x01 :: (encodeString (strBytes clientName) ++ encodeStrMap authToken)

lemma pow256_eq (w : Nat) : (256 : Nat) ^ w = 2 ^ (8 * w) := by
  rw [show (256 : Nat) = 2 ^ 8 by norm_num, ← pow_mul]

lemma beBytes_length (w n : Nat) : (beBytes w n).length = w := by
  induction w generalizing n with
  | zero => rfl
  | succ w ih => simp [beBytes, ih]

lemma beNat_append (xs : List Nat) (b : Nat) :
    beNat (xs ++ [b]) = beNat xs * 256 + b := by
  simp [beNat, List.foldl_append]

lemma beNat_beBytes (w n : Nat) : beNat (beBytes w n) = n % 256 ^ w := by
  induction w generalizing n with
  | zero => simp [beBytes, beNat, Nat.mod_one]
  | succ w ih =>
    rw [beBytes, beNat_append, ih, pow_succ, mul_comm (256 ^ w) 256, Nat.mod_mul]
    ring

lemma beBytes_mod (w n : Nat) : beBytes w (n % 256 ^ w) = beBytes w n := by
  induction w generalizing n with
  | zero => rfl
  | succ w ih =>
    rw [beBytes, beBytes]
    have h1 : n % 256 ^ (w + 1) / 256 = n / 256 % 256 ^ w := by
      rw [pow_succ, mul_comm (256 ^ w) 256, Nat.mod_mul_right_div_self]
    have h2 : n % 256 ^ (w + 1) % 256 = n % 256 := by
      apply Nat.mod_mod_of_dvd
      exact dvd_pow_self 256 (Nat.succ_ne_zero w)
    rw [h1, h2, ih]

lemma beBytes_drop (w k n : Nat) (hk : k ≤ w) :
    (beBytes w n).drop (w - k) = beBytes k n := by
  induction w generalizing n k with
  | zero =>
    obtain rfl : k = 0 := Nat.le_zero.mp hk
    rfl
  | succ w ih =>
    rw [beBytes]
    rcases k with _ | j
    · have hlen : w + 1 - 0 = (beBytes w (n / 256) ++ [n % 256]).length := by
        simp [beBytes_length]
      rw [hlen, List.drop_length]
      rfl
    · have hj : j ≤ w := by omega
      have hw : w + 1 - (j + 1) = w - j := by omega
      have hle : w - j ≤ (beBytes w (n / 256)).length := by
        rw [beBytes_length]; omega
      rw [hw, List.drop_append_of_le_length hle, ih j (n / 256) hj]
      rfl

lemma rev_take_rev (l : List Nat) (k : Nat) :
    (l.reverse.take k).reverse = l.drop (l.length - k) :=
  (List.rtake_eq_reverse_take_reverse l k).symm

lemma toNat2c_lt (w : Nat) (v : Int) : toNat2c w v < 2 ^ (8 * w) := by
  have hpos : (0 : Int) < 2 ^ (8 * w) := by positivity
  have h1 := Int.emod_nonneg v (ne_of_gt hpos)
  have h2 := Int.emod_lt_of_pos v hpos
  have hcast : ((2 ^ (8 * w) : Nat) : Int) = (2 : Int) ^ (8 * w) := by push_cast; ring
  unfold toNat2c
  omega

lemma toNat2c_cast (w : Nat) (v : Int) :
    ((toNat2c w v : Nat) : Int) = v % 2 ^ (8 * w) := by
  have hpos : (0 : Int) < 2 ^ (8 * w) := by positivity
  exact Int.toNat_of_nonneg (Int.emod_nonneg v (ne_of_gt hpos))

lemma ofNat2c_toNat2c (w : Nat) (v : Int) (hw : 1 ≤ w)
    (h1 : -(2 ^ (8 * w - 1)) ≤ v) (h2 : v < 2 ^ (8 * w - 1)) :
    ofNat2c w (toNat2c w v) = v := by
  have hpow : (2 : Int) ^ (8 * w) = 2 ^ (8 * w - 1) * 2 := by
    rw [← pow_succ]
    congr 1
    omega
  have hpos : (0 : Int) < 2 ^ (8 * w) := by positivity
  have hpos1 : (0 : Int) < 2 ^ (8 * w - 1) := by positivity
  have hcast := toNat2c_cast w v
  have hcast1 : ((2 ^ (8 * w - 1) : Nat) : Int) = (2 : Int) ^ (8 * w - 1) := by
    push_cast; ring
  have hmod : v % 2 ^ (8 * w) = v ∨ v % 2 ^ (8 * w) = v + 2 ^ (8 * w) := by
    rcases le_or_lt 0 v with hv | hv
    · left
      exact Int.emod_eq_of_lt hv (by omega)
    · right
      have hself : (v + 2 ^ (8 * w) * 1) % 2 ^ (8 * w) = v % 2 ^ (8 * w) :=
        Int.add_mul_emod_self_left v (2 ^ (8 * w)) 1
      rw [mul_one] at hself
      rw [← hself]
      exact Int.emod_eq_of_lt (by omega) (by omega)
  unfold ofNat2c
  split_ifs with h
  · omega
  · omega

lemma toNat2c_mod (w k : Nat) (v : Int) (hk : k ≤ w) :
    toNat2c w v % 2 ^ (8 * k) = toNat2c k v := by
  have hdvd : ((2 : Int) ^ (8 * k)) ∣ (2 : Int) ^ (8 * w) := pow_dvd_pow 2 (by omega)
  have h1 : ((toNat2c w v % 2 ^ (8 * k) : Nat) : Int) = v % 2 ^ (8 * k) := by
    push_cast [toNat2c_cast]
    exact Int.emod_emod_of_dvd v hdvd
  have h2 := toNat2c_cast k v
  exact Nat.cast_inj.mp (h1.trans h2.symm)

lemma payload_eq (w k : Nat) (v : Int) (hk : k ≤ w) :
    ((beBytes w (toNat2c w v)).reverse.take k).reverse = beBytes k (toNat2c k v) := by
  rw [rev_take_rev, beBytes_length, beBytes_drop w k _ hk,
    ← beBytes_mod k (toNat2c w v), pow256_eq, toNat2c_mod w k v hk]

lemma getMarker_mk (w : Nat) (v : Int) (hw : w = 1 ∨ w = 2 ∨ w = 4 ∨ w = 8)
    (h1 : -(2 ^ (8 * w - 1)) ≤ v) (h2 : v < 2 ^ (8 * w - 1)) :
    (Integer.mk (beBytes w (toNat2c w v))).getMarker = .ok (markerOf v) := by
  have hw1 : 1 ≤ w := by rcases hw with rfl | rfl | rfl | rfl <;> norm_num
  have hval : ofNat2c w (beNat (beBytes w (toNat2c w v))) = v := by
    rw [beNat_beBytes, pow256_eq, Nat.mod_eq_of_lt (toNat2c_lt w v)]
    exact ofNat2c_toNat2c w v hw1 h1 h2
  have hlen : (beBytes w (toNat2c w v)).length = w := beBytes_length w _
  unfold Integer.getMarker
  simp only [hlen, hval]
  rw [if_pos hw]
  unfold markerOf
  split_ifs <;> first | rfl | omega

lemma tiny_bound (v : Int) (hv1 : -16 ≤ v) (hv2 : v ≤ 127) :
    toNat2c 1 v ≤ 127 ∨ 240 ≤ toNat2c 1 v := by
  have h256 : (2 : Int) ^ (8 * 1) = 256 := by norm_num
  unfold toNat2c
  rw [h256]
  omega

lemma integer_value_mk (w : Nat) (v : Int) (hw : 1 ≤ w)
    (h1 : -(2 ^ (8 * w - 1)) ≤ v) (h2 : v < 2 ^ (8 * w - 1)) :
    (Integer.mk (beBytes w (toNat2c w v))).value = v := by
  unfold Integer.value
  rw [beBytes_length, beNat_beBytes, pow256_eq, Nat.mod_eq_of_lt (toNat2c_lt w v)]
  exact ofNat2c_toNat2c w v hw h1 h2

lemma tryIntoBytes_canonical (w : Nat) (v : Int)
    (hw : w = 1 ∨ w = 2 ∨ w = 4 ∨ w = 8)
    (h1 : -(2 ^ (8 * w - 1)) ≤ v) (h2 : v < 2 ^ (8 * w - 1)) :
    (Integer.mk (beBytes w (toNat2c w v))).tryIntoBytes
      = .ok (canonicalIntBytes v) := by
  unfold Integer.tryIntoBytes
  rw [getMarker_mk w v hw h1 h2]
  dsimp only
  by_cases c0 : -16 ≤ v ∧ v ≤ 127
  · have hm : markerOf v = toNat2c 1 v := by
      unfold markerOf
      rw [if_pos c0]
    have ht := tiny_bound v c0.1 c0.2
    unfold canonicalIntBytes
    rw [if_pos c0, hm, if_neg (by omega), if_neg (by omega), if_neg (by omega),
      if_neg (by omega)]
  · by_cases c1 : -128 ≤ v ∧ v ≤ -17
    · have hm : markerOf v = 0xC8 := by
        unfold markerOf
        rw [if_neg c0, if_pos c1]
      have hk : 1 ≤ w := by rcases hw with rfl | rfl | rfl | rfl <;> norm_num
      unfold canonicalIntBytes
      rw [if_neg c0, if_pos c1, hm, if_pos rfl, payload_eq w 1 v hk]
    · by_cases c2 : (-32768 ≤ v ∧ v ≤ -129) ∨ (128 ≤ v ∧ v ≤ 32767)
      · have hm : markerOf v = 0xC9 := by
          unfold markerOf
          rw [if_neg c0, if_neg c1, if_pos c2]
        have hk : 2 ≤ w := by
          rcases hw with rfl | rfl | rfl | rfl <;> norm_num at h1 h2 ⊢ <;> omega
        unfold canonicalIntBytes
        rw [if_neg c0, if_neg c1, if_pos c2, hm, if_neg (by norm_num), if_pos rfl,
          payload_eq w 2 v hk]
      · by_cases c3 : (-2147483648 ≤ v ∧ v ≤ -32769) ∨ (32768 ≤ v ∧ v ≤ 2147483647)
        · have hm : markerOf v = 0xCA := by
            unfold markerOf
            rw [if_neg c0, if_neg c1, if_neg c2, if_pos c3]
          have hk : 4 ≤ w := by
            rcases hw with rfl | rfl | rfl | rfl <;> norm_num at h1 h2 ⊢ <;> omega
          unfold canonicalIntBytes
          rw [if_neg c0, if_neg c1, if_neg c2, if_pos c3, hm, if_neg (by norm_num),
            if_neg (by norm_num), if_pos rfl, payload_eq w 4 v hk]
        · have hm : markerOf v = 0xCB := by
            unfold markerOf
            rw [if_neg c0, if_neg c1, if_neg c2, if_neg c3]
          have hk : 8 ≤ w := by
            rcases hw with rfl | rfl | rfl | rfl <;> norm_num at h1 h2 ⊢ <;> omega
          unfold canonicalIntBytes
          rw [if_neg c0, if_neg c1, if_neg c2, if_neg c3, hm, if_neg (by norm_num),
            if_neg (by norm_num), if_neg (by norm_num), if_pos rfl,
            payload_eq w 8 v hk]

lemma ofNat2c_beNat_take (k : Nat) (v : Int) (hk : 1 ≤ k)
    (hr1 : -(2 ^ (8 * k - 1)) ≤ v) (hr2 : v < 2 ^ (8 * k - 1)) :
    ofNat2c k (beNat ((beBytes k (toNat2c k v)).take k)) = v := by
  rw [List.take_of_length_le (by rw [beBytes_length]), beNat_beBytes, pow256_eq,
    Nat.mod_eq_of_lt (toNat2c_lt k v)]
  exact ofNat2c_toNat2c k v hk hr1 hr2

lemma drop_beBytes_self (k : Nat) (n : Nat) : (beBytes k n).drop k = [] :=
  List.drop_of_length_le (by rw [beBytes_length])

lemma tryFromBytes_canonical (v : Int) (h1 : -(2 ^ 63) ≤ v) (h2 : v < 2 ^ 63) :
    ∃ i : Integer,
      Integer.tryFromBytes (canonicalIntBytes v) = .ok (i, []) ∧ i.value = v := by
  by_cases c0 : -16 ≤ v ∧ v ≤ 127
  · have hc := tiny_bound v c0.1 c0.2
    have hval : ofNat2c 1 (toNat2c 1 v) = v := by
      apply ofNat2c_toNat2c 1 v (le_refl 1) <;> norm_num <;> omega
    refine ⟨Integer.fromI8 (ofNat2c 1 (toNat2c 1 v)), ?_, ?_⟩
    · unfold canonicalIntBytes
      rw [if_pos c0]
      unfold Integer.tryFromBytes
      dsimp only
      rw [if_pos hc]
    · rw [hval]
      unfold Integer.fromI8
      apply integer_value_mk 1 v (le_refl 1) <;> norm_num <;> omega
  · by_cases c1 : -128 ≤ v ∧ v ≤ -17
    · have hval : ofNat2c 1 (toNat2c 1 v) = v := by
        apply ofNat2c_toNat2c 1 v (le_refl 1) <;> norm_num <;> omega
      have hlt : toNat2c 1 v < 256 := by
        have := toNat2c_lt 1 v
        norm_num at this
        exact this
      refine ⟨Integer.fromI8 (ofNat2c 1 (toNat2c 1 v)), ?_, ?_⟩
      · unfold canonicalIntBytes
        rw [if_neg c0, if_pos c1]
        have hbe : beBytes 1 (toNat2c 1 v) = [toNat2c 1 v] := by
          simp [beBytes, Nat.mod_eq_of_lt hlt]
        rw [hbe]
        unfold Integer.tryFromBytes
        dsimp only
        rw [if_neg (by norm_num), if_pos rfl]
      · rw [hval]
        unfold Integer.fromI8
        apply integer_value_mk 1 v (le_refl 1) <;> norm_num <;> omega
    · by_cases c2 : (-32768 ≤ v ∧ v ≤ -129) ∨ (128 ≤ v ∧ v ≤ 32767)
      · have hval := ofNat2c_beNat_take 2 v (by norm_num)
          (by norm_num; omega) (by norm_num; omega)
        refine ⟨Integer.fromI16 (ofNat2c 2 (beNat ((beBytes 2 (toNat2c 2 v)).take 2))),
          ?_, ?_⟩
        · unfold canonicalIntBytes
          rw [if_neg c0, if_neg c1, if_pos c2]
          unfold Integer.tryFromBytes
          dsimp only
          rw [if_neg (by norm_num), if_neg (by norm_num), if_pos rfl,
            if_pos (by rw [beBytes_length]), drop_beBytes_self]
        · rw [hval]
          unfold Integer.fromI16
          apply integer_value_mk 2 v (by norm_num) <;> norm_num <;> omega
      · by_cases c3 : (-2147483648 ≤ v ∧ v ≤ -32769) ∨ (32768 ≤ v ∧ v ≤ 2147483647)
        · have hval := ofNat2c_beNat_take 4 v (by norm_num)
            (by norm_num; omega) (by norm_num; omega)
          refine ⟨Integer.fromI32 (ofNat2c 4 (beNat ((beBytes 4 (toNat2c 4 v)).take 4))),
            ?_, ?_⟩
          · unfold canonicalIntBytes
            rw [if_neg c0, if_neg c1, if_neg c2, if_pos c3]
            unfold Integer.tryFromBytes
            dsimp only
            rw [if_neg (by norm_num), if_neg (by norm_num), if_neg (by norm_num),
              if_pos rfl, if_pos (by rw [beBytes_length]), drop_beBytes_self]
          · rw [hval]
            unfold Integer.fromI32
            apply integer_value_mk 4 v (by norm_num) <;> norm_num <;> omega
        · have hval := ofNat2c_beNat_take 8 v (by norm_num)
            (by norm_num; omega) (by norm_num; omega)
          refine ⟨Integer.fromI64 (ofNat2c 8 (beNat ((beBytes 8 (toNat2c 8 v)).take 8))),
            ?_, ?_⟩
          · unfold canonicalIntBytes
            rw [if_neg c0, if_neg c1, if_neg c2, if_neg c3]
            unfold Integer.tryFromBytes
            dsimp only
            rw [if_neg (by norm_num), if_neg (by norm_num), if_neg (by norm_num),
              if_neg (by norm_num), if_pos rfl, if_pos (by rw [beBytes_length]),
              drop_beBytes_self]
          · rw [hval]
            unfold Integer.fromI64
            apply integer_value_mk 8 v (by norm_num) <;> norm_num <;> omega

lemma reassemble_frame (chunks : List (List Nat)) (acc : List Nat)
    (h : ∀ c ∈ chunks, 1 ≤ c.length ∧ c.length ≤ 65535) :
    reassembleChunks (frameChunks chunks) acc = .ok (acc ++ chunks.flatten) := by
  induction chunks generalizing acc with
  | nil => simp [frameChunks, u16be, reassembleChunks]
  | cons c cs ih =>
    have hc := h c (List.mem_cons_self c cs)
    have hform : frameChunks (c :: cs)
        = c.length / 256 % 256 :: c.length % 256 :: (c ++ frameChunks cs) := by
      simp [frameChunks, u16be]
    have hsize : c.length / 256 % 256 * 256 + c.length % 256 = c.length := by
      omega
    rw [hform, reassembleChunks]
    simp only [hsize]
    rw [if_neg (by push_neg; intro hz; omega),
      if_pos (by simp only [List.length_append]; omega),
      List.take_left c (frameChunks cs), List.drop_left c (frameChunks cs),
      ih (acc ++ c) (fun d hd => h d (List.mem_cons_of_mem c hd))]
    simp

lemma pullAllLoop_split (recs : List Record) (acc : List Record) (term : Message)
    (post : List Message) (h : term.isRecord = false) :
    pullAllLoop (recs.map Message.record ++ term :: post) acc
      = .ok ((term, acc ++ recs), post) := by
  induction recs generalizing acc with
  | nil =>
    simp only [List.map_nil, List.nil_append, List.append_nil]
    cases term <;> first | rfl | simp [Message.isRecord] at h
  | cons r rs ih =>
    simp only [List.map_cons, List.cons_append]
    have hstep : pullAllLoop
        (Message.record r :: (rs.map Message.record ++ term :: post)) acc
        = pullAllLoop (rs.map Message.record ++ term :: post) (acc ++ [r]) := rfl
    rw [hstep, ih (acc ++ [r])]
    simp

/-- C1: integer encoding is canonical — encoding any i64 value stored at
width 8 yields exactly the table's narrowest marker with a big-endian
payload, and the five fixture values encode to the spec's hex bytes. -/
theorem integer_encoding_canonical :
    (∀ v : Int, -(2 ^ 63) ≤ v → v < 2 ^ 63 →
      (Integer.fromI64 v).tryIntoBytes = .ok (canonicalIntBytes v))
    ∧ (Integer.fromI64 (-16)).tryIntoBytes = .ok [0xF0]
    ∧ (Integer.fromI64 (-50)).tryIntoBytes = .ok [0xC8, 0xCE]
    ∧ (Integer.fromI64 (-8000)).tryIntoBytes = .ok [0xC9, 0xE0, 0xC0]
    ∧ (Integer.fromI64 (-1000000000)).tryIntoBytes
        = .ok [0xCA, 0xC4, 0x65, 0x36, 0x00]
    ∧ (Integer.fromI64 (-9000000000000000000)).tryIntoBytes
        = .ok [0xCB, 0x83, 0x19, 0x93, 0xAF, 0x1D, 0x7C, 0x00, 0x00] := by
  refine ⟨?_, by decide, by decide, by decide, by decide, by decide⟩
  intro v h1 h2
  have h1' : -(2 ^ (8 * 8 - 1)) ≤ v := by norm_num at h1 ⊢ <;> omega
  have h2' : v < 2 ^ (8 * 8 - 1) := by norm_num at h2 ⊢ <;> omega
  unfold Integer.fromI64
  exact tryIntoBytes_canonical 8 v (by norm_num) h1' h2'

theorem integer_encoding_canonical_witness :
    (-(2 ^ 63) ≤ (300 : Int)) ∧ ((300 : Int) < 2 ^ 63)
    ∧ (Integer.fromI64 300).tryIntoBytes = .ok (canonicalIntBytes 300) :=
  ⟨by norm_num, by norm_num,
    integer_encoding_canonical.1 300 (by norm_num) (by norm_num)⟩

/-- C2: integer round-trip — for every value fitting any of the four
stored widths, serializing and deserializing returns an Integer with the
same logical i64 value, and nothing of the input remains unread. -/
theorem integer_roundtrip :
    ∀ (v : Int) (w : Nat), (w = 1 ∨ w = 2 ∨ w = 4 ∨ w = 8) →
      -(2 ^ (8 * w - 1)) ≤ v → v < 2 ^ (8 * w - 1) →
      ∃ (bs : List Nat) (i : Integer),
        (Integer.mk (beBytes w (toNat2c w v))).tryIntoBytes = .ok bs
        ∧ Integer.tryFromBytes bs = .ok (i, []) ∧ i.value = v := by
  intro v w hw h1 h2
  have hr1 : -(2 ^ 63) ≤ v := by
    rcases hw with rfl | rfl | rfl | rfl <;> norm_num at h1 h2 ⊢ <;> omega
  have hr2 : v < 2 ^ 63 := by
    rcases hw with rfl | rfl | rfl | rfl <;> norm_num at h1 h2 ⊢ <;> omega
  obtain ⟨i, hdec, hval⟩ := tryFromBytes_canonical v hr1 hr2
  exact ⟨canonicalIntBytes v, i, tryIntoBytes_canonical w v hw h1 h2, hdec, hval⟩

theorem integer_roundtrip_witness :
    ((2 : Nat) = 1 ∨ (2 : Nat) = 2 ∨ (2 : Nat) = 4 ∨ (2 : Nat) = 8)
    ∧ (-(2 ^ (8 * 2 - 1)) ≤ (-300 : Int)) ∧ ((-300 : Int) < 2 ^ (8 * 2 - 1))
    ∧ ∃ (bs : List Nat) (i : Integer),
        (Integer.mk (beBytes 2 (toNat2c 2 (-300)))).tryIntoBytes = .ok bs
        ∧ Integer.tryFromBytes bs = .ok (i, []) ∧ i.value = -300 :=
  ⟨by norm_num, by norm_num, by norm_num,
    integer_roundtrip (-300) 2 (by norm_num) (by norm_num) (by norm_num)⟩

/-- C3 (code bug): the framing writer emits the whole body as a single
chunk — correct for the 16-byte fixture, but a 65536-byte body gets a u16
length field wrapped around to zero instead of being split into ≤ 65535
byte chunks. -/
theorem framing_write_wraps_large_body :
    msgIntoBytes [0, 1, 2, 3, 4, 5, 6, 7, 8, 9, 10, 11, 12, 13, 14, 15]
      = [0x00, 0x10] ++ [0, 1, 2, 3, 4, 5, 6, 7, 8, 9, 10, 11, 12, 13, 14, 15]
        ++ [0x00, 0x00]
    ∧ msgIntoBytes (List.replicate 65536 0)
      = [0x00, 0x00] ++ List.replicate 65536 0 ++ [0x00, 0x00] := by
  constructor
  · decide
  · unfold msgIntoBytes u16be
    rw [List.length_replicate]

/-- C4: framing on read — a well-formed framed sequence (length-prefixed
chunks of 1..65535 bytes, zero-terminated) reassembles to the
concatenation of its chunk payloads, and the two-chunk fixture
reassembles to its 20 bytes. -/
theorem framing_read_reassembles :
    (∀ chunks : List (List Nat),
      (∀ c ∈ chunks, 1 ≤ c.length ∧ c.length ≤ 65535) →
      msgTryFromBytes (frameChunks chunks) = .ok chunks.flatten)
    ∧ msgTryFromBytes ([0x00, 0x10]
          ++ [0, 1, 2, 3, 4, 5, 6, 7, 8, 9, 10, 11, 12, 13, 14, 15]
          ++ [0x00, 0x04, 1, 2, 3, 4, 0x00, 0x00])
      = .ok ([0, 1, 2, 3, 4, 5, 6, 7, 8, 9, 10, 11, 12, 13, 14, 15]
          ++ [1, 2, 3, 4]) := by
  have hgen : ∀ chunks : List (List Nat),
      (∀ c ∈ chunks, 1 ≤ c.length ∧ c.length ≤ 65535) →
      msgTryFromBytes (frameChunks chunks) = .ok chunks.flatten := by
    intro chunks h
    unfold msgTryFromBytes
    rw [reassemble_frame chunks [] h]
    simp
  refine ⟨hgen, ?_⟩
  have hframe : frameChunks
      [[0, 1, 2, 3, 4, 5, 6, 7, 8, 9, 10, 11, 12, 13, 14, 15], [1, 2, 3, 4]]
      = [0x00, 0x10] ++ [0, 1, 2, 3, 4, 5, 6, 7, 8, 9, 10, 11, 12, 13, 14, 15]
        ++ [0x00, 0x04, 1, 2, 3, 4, 0x00, 0x00] := by decide
  rw [← hframe,
    hgen [[0, 1, 2, 3, 4, 5, 6, 7, 8, 9, 10, 11, 12, 13, 14, 15], [1, 2, 3, 4]]
      (by decide)]
  decide

theorem framing_read_reassembles_witness :
    msgTryFromBytes (frameChunks [[7]]) = .ok (List.flatten [[7]]) :=
  framing_read_reassembles.1 [[7]] (by decide)

/-- C5 counterexample: an empty message is NOT framed as the two bytes
00 00 — the writer still emits a length header for the empty body. -/
theorem empty_message_not_two_bytes : msgIntoBytes [] ≠ [0x00, 0x00] := by decide

/-- C5 (amended): an empty message is framed as a zero-length chunk
header followed by the zero terminator — the four bytes 00 00 00 00. -/
theorem empty_message_four_bytes :
    msgIntoBytes [] = [0x00, 0x00, 0x00, 0x00] := by decide

/-- C6: the INIT fixture — INIT("MyClient/1.0", {"scheme": "basic"})
encodes to the 29 specified bytes. -/
theorem init_encoding_fixture :
    encodeInit "MyClient/1.0" [("scheme", "basic")]
      = [0xB2, 0x01, 0x8C, 0x4D, 0x79, 0x43, 0x6C, 0x69, 0x65, 0x6E, 0x74, 0x2F,
         0x31, 0x2E, 0x30, 0xA1, 0x86, 0x73, 0x63, 0x68, 0x65, 0x6D, 0x65, 0x85,
         0x62, 0x61, 0x73, 0x69, 0x63] := by decide

/-- C7: version gating — invoking a method outside its negotiated-version
set returns `UnsupportedOperation(version)` with the client state (sent
messages included) unchanged, and the per-method sets match the spec
table. -/
theorem version_gating :
    (∀ (m : ClientMethod) (st : ClientState),
      st.version ∉ supportedVersions m →
      invoke m st = (.error (.unsupportedOperation st.version), st))
    ∧ (∀ c a, supportedVersions (.init c a) = [1, 2])
    ∧ supportedVersions .ackFailure = [1, 2]
    ∧ supportedVersions .discardAll = [1, 2, 3]
    ∧ supportedVersions .pullAll = [1, 2, 3]
    ∧ supportedVersions .reset = [1, 2, 3, 4] := by
  refine ⟨?_, fun c a => rfl, rfl, rfl, rfl, rfl⟩
  intro m st h
  unfold invoke
  rw [if_neg h]

theorem version_gating_witness :
    ((3 : Nat) ∉ supportedVersions (ClientMethod.init "client" []))
    ∧ invoke (ClientMethod.init "client" []) ⟨3, [], []⟩
      = (.error (.unsupportedOperation 3), ⟨3, [], []⟩) :=
  ⟨by decide,
    version_gating.1 (ClientMethod.init "client" []) ⟨3, [], []⟩ (by decide)⟩

/-- C8 counterexample: the `pull_all` loop returns the first non-RECORD
message whatever its kind — here a RESET read from the stream comes back
as the terminal, which is none of SUCCESS, FAILURE, IGNORED. -/
theorem pull_all_terminal_kind_cex :
    pullAllLoop [Message.reset] [] = .ok ((Message.reset, []), [])
    ∧ isTerminalKind Message.reset = false :=
  ⟨rfl, rfl⟩

/-- C8 (amended): `pull_all` returns the RECORD messages read before the
first non-RECORD reply, in arrival order, together with that first
non-RECORD reply as the terminal; the code never returns a RECORD as
terminal but does not restrict the terminal to SUCCESS/FAILURE/IGNORED. -/
theorem pull_all_records_until_non_record :
    ∀ (recs : List Record) (term : Message) (post : List Message),
      term.isRecord = false →
      pullAllLoop (recs.map Message.record ++ term :: post) []
        = .ok ((term, recs), post) := by
  intro recs term post h
  have hsplit := pullAllLoop_split recs [] term post h
  simpa using hsplit

theorem pull_all_records_until_non_record_witness :
    Message.ignored.isRecord = false
    ∧ pullAllLoop ([Record.mk [Value.null]].map Message.record
        ++ Message.ignored :: []) []
      = .ok ((Message.ignored, [Record.mk [Value.null]]), []) :=
  ⟨rfl, pull_all_records_until_non_record [Record.mk [Value.null]]
    Message.ignored [] rfl⟩

/-- C9: integer deserialization is total — every input yields an Integer
or a typed error; a first byte that is neither tiny nor 0xC8..0xCB gives
`InvalidMarkerByte` carrying that byte, and input shorter than the width
the marker demands gives the panic-captured error, never a success. -/
theorem integer_deserialize_total :
    (∀ bs : List Nat,
      (∃ i rest, Integer.tryFromBytes bs = .ok (i, rest))
      ∨ (∃ e, Integer.tryFromBytes bs = .error e))
    ∧ (∀ (m : Nat) (rest : List Nat), m < 256 → ¬(m ≤ 127 ∨ 0xF0 ≤ m) →
        m ≠ 0xC8 → m ≠ 0xC9 → m ≠ 0xCA → m ≠ 0xCB →
        Integer.tryFromBytes (m :: rest) = .error (.invalidMarkerByte m))
    ∧ Integer.tryFromBytes [] = .error .panicked
    ∧ Integer.tryFromBytes [0xC8] = .error .panicked
    ∧ (∀ rest : List Nat, rest.length < 2 →
        Integer.tryFromBytes (0xC9 :: rest) = .error .panicked)
    ∧ (∀ rest : List Nat, rest.length < 4 →
        Integer.tryFromBytes (0xCA :: rest) = .error .panicked)
    ∧ (∀ rest : List Nat, rest.length < 8 →
        Integer.tryFromBytes (0xCB :: rest) = .error .panicked) := by
  refine ⟨?_, ?_, rfl, rfl, ?_, ?_, ?_⟩
  · intro bs
    cases h : Integer.tryFromBytes bs with
    | ok p =>
      obtain ⟨i, rest⟩ := p
      exact Or.inl ⟨i, rest, rfl⟩
    | error e => exact Or.inr ⟨e, rfl⟩
  · intro m rest h256 hnt h8 h9 hA hB
    unfold Integer.tryFromBytes
    dsimp only
    rw [if_neg hnt, if_neg h8, if_neg h9, if_neg hA, if_neg hB]
  · intro rest h
    unfold Integer.tryFromBytes
    dsimp only
    rw [if_neg (by norm_num), if_neg (by norm_num), if_pos rfl,
      if_neg (by omega)]
  · intro rest h
    unfold Integer.tryFromBytes
    dsimp only
    rw [if_neg (by norm_num), if_neg (by norm_num), if_neg (by norm_num),
      if_pos rfl, if_neg (by omega)]
  · intro rest h
    unfold Integer.tryFromBytes
    dsimp only
    rw [if_neg (by norm_num), if_neg (by norm_num), if_neg (by norm_num),
      if_neg (by norm_num), if_pos rfl, if_neg (by omega)]

theorem integer_deserialize_total_witness :
    ((0x90 : Nat) < 256) ∧ ¬((0x90 : Nat) ≤ 127 ∨ 0xF0 ≤ (0x90 : Nat))
    ∧ Integer.tryFromBytes [0x90] = .error (.invalidMarkerByte 0x90) :=
  ⟨by norm_num, by norm_num,
    integer_deserialize_total.2.1 0x90 [] (by norm_num) (by norm_num)
      (by norm_num) (by norm_num) (by norm_num) (by norm_num)⟩

/-- C10: List/Vec round-trip — a vector of Values converted into a List
and back returns the same vector, and converting any List to a vector
never fails. -/
theorem list_vec_roundtrip :
    (∀ vs : List Value, listTryIntoVec (listFromVec vs) = .ok vs)
    ∧ (∀ l : BoltList, ∃ vs : List Value, listTryIntoVec l = .ok vs) := by
  constructor
  · intro vs
    simp [listFromVec, listTryIntoVec]
  · intro l
    exact ⟨l.value, rfl⟩
